import Mathlib

/-
Verification development for the Position Ledger & Valuation Engine of the
my-giro-tracker repository.

The definitions below are a shallow embedding of the second (current) version of
src/utils/portfolioCalculations.ts and of the percentage computation in
src/components/PortfolioChart.tsx.

Conventions of the embedding:
- JavaScript numbers are modelled as rationals; the arithmetic the
  engine performs on well-formed broker data stays in the exact range where
  JS doubles and rationals agree, except for division by zero, which is
  modelled explicitly (JsNum) where a claim depends on it.
- The date-fns parse calls are an out-of-scope collaborator per the spec, so a
  record carries the parse result directly: an (Option EDate), none standing
  for an unparseable date (NaN), which the engine drops.  An EDate holds the
  calendar fields the format strings dd-MM-yyyy HH:mm mention.
- A JavaScript Map is modelled as an insertion-ordered association list:
  get returns the first binding, set overwrites the first binding in place or
  appends a fresh one at the end, delete removes the first binding.  This is
  exactly the observable behaviour of Map for the engine's usage.
- Array.prototype.sort is stable; it is modelled by a stable insertion sort.
- The wall clock (new Date() inside the engine) is passed as an explicit
  argument, the standard modelling of a clock read.
-/

/-- Math.abs on rationals. -/
def jsAbs (q : ℚ) : ℚ := if q < 0 then -q else q

/-- Math.sign on rationals (returns -1, 0 or 1; the engine never feeds NaN here). -/
def jsSign (q : ℚ) : Int := if 0 < q then 1 else if q < 0 then -1 else 0

/-- Map.prototype.get: first binding of the key, if any. -/
def aGet [DecidableEq K] (m : List (K × β)) (k : K) : Option β :=
  match m with
  | [] => none
  | p :: ps => if p.1 = k then some p.2 else aGet ps k

/-- Map.prototype.set: overwrite the first binding in place, else append. -/
def aSet [DecidableEq K] (m : List (K × β)) (k : K) (v : β) : List (K × β) :=
  match m with
  | [] => [(k, v)]
  | p :: ps => if p.1 = k then (k, v) :: ps else p :: aSet ps k v

/-- Map.prototype.delete: drop the first binding of the key. -/
def aErase [DecidableEq K] (m : List (K × β)) (k : K) : List (K × β) :=
  match m with
  | [] => []
  | p :: ps => if p.1 = k then ps else p :: aErase ps k

/-- Insert an element into a list in front of the first element that is not
strictly below it; the helper of the stable sort. -/
def insertEv (lt : α → α → Bool) (e : α) : List α → List α
  | [] => [e]
  | x :: xs => if lt x e then x :: insertEv lt e xs else e :: x :: xs

/-- Stable insertion sort: equal elements keep their input order, which is the
stability guarantee of Array.prototype.sort. -/
def sortBy (lt : α → α → Bool) (l : List α) : List α := l.foldr (insertEv lt) []

/-- Calendar timestamp as produced by parsing dd-MM-yyyy HH:mm. -/
structure EDate where
  year : Int
  month : Nat
  day : Nat
  hour : Nat
  minute : Nat
deriving DecidableEq

/-- Linearisation of an EDate; for calendar-valid fields it is strictly
monotone in chronological order, so comparing keys is comparing getTime(). -/
def EDate.key (d : EDate) : Int :=
  (((d.year * 13 + (d.month : Int)) * 32 + (d.day : Int)) * 24 + (d.hour : Int)) * 60
    + (d.minute : Int)

/-- The sort comparator of the engine: strictly earlier timestamp. -/
def dateLt (a b : EDate) : Bool := decide (a.key < b.key)

/-- A transaction row (DeGiroTransaction); fields the engine never reads
(exchange, currencies, order id) are omitted, and the two date/time strings are
replaced by their parse result. -/
structure DeGiroTransaction where
  product : String
  isin : String
  aantal : ℚ
  koers : ℚ
  waarde : ℚ
  transactiekosten : ℚ
  date : Option EDate
deriving DecidableEq

/-- A cash-account row (AccountActivity), reduced to the fields the engine
reads: description, signed amount and the parsed timestamp. -/
structure AccountActivity where
  omschrijving : String
  mutatie : ℚ
  date : Option EDate
deriving DecidableEq

/-- A stored price observation (PriceHistory row). -/
structure PriceHistory where
  isin : String
  price : ℚ
  date : Option EDate
deriving DecidableEq

/-- A user-entered dividend. -/
structure Dividend where
  amount : ℚ
  date : Option EDate
deriving DecidableEq

/-- The reporting view of one instrument (PortfolioHolding). -/
structure PortfolioHolding where
  product : String
  isin : String
  quantity : ℚ
  averagePrice : ℚ
  currentPrice : Option ℚ
  totalValue : ℚ
  totalCost : ℚ
  profitLoss : ℚ
  profitLossPercentage : ℚ
deriving DecidableEq

/-- One point of the valuation time series (PortfolioSnapshot). -/
structure Snapshot where
  date : EDate
  value : ℚ
deriving DecidableEq

/-- Does the needle occur at the head of the haystack? -/
def beginsWith : List Char → List Char → Bool
  | [], _ => true
  | _ :: _, [] => false
  | a :: as, b :: bs => a == b && beginsWith as bs

/-- Substring test, String.prototype.includes on char lists. -/
def hasSub (needle : List Char) : List Char → Bool
  | [] => beginsWith needle []
  | c :: cs => beginsWith needle (c :: cs) || hasSub needle cs

/-- The deposit filter: omschrijving.toLowerCase().includes(ideal). -/
def isDepositActivity (a : AccountActivity) : Bool :=
  hasSub ['i', 'd', 'e', 'a', 'l'] (a.omschrijving.data.map Char.toLower)

/-- The regex test for option products: some occurrence of C or P followed by
at least two digits (an unanchored test, so two digits suffice). -/
def hasOptionPattern : List Char → Bool
  | c :: c1 :: c2 :: rest =>
      ((c == 'C' || c == 'P') && c1.isDigit && c2.isDigit)
        || hasOptionPattern (c1 :: c2 :: rest)
  | _ => false

/-- isOptionTransaction of the source. -/
def isOptionTransaction (t : DeGiroTransaction) : Bool :=
  hasOptionPattern t.product.data

/-- The instrument key used by every map in the engine. -/
def instrKey (isin product : String) : String := isin ++ "-" ++ product

/-- calculateHoldings: fold the transactions into per-instrument holdings and
keep the open ones. -/
def calculateHoldings (txs : List DeGiroTransaction) : List PortfolioHolding :=
  ((txs.foldl (fun m t =>
    let key := instrKey t.isin t.product
    match aGet m key with
    | some existing =>
        let newQuantity := existing.quantity + t.aantal
        let newTotalCost := existing.totalCost + jsAbs t.waarde
        aSet m key { existing with
          quantity := newQuantity,
          totalCost := newTotalCost,
          averagePrice := if newQuantity ≠ 0 then newTotalCost / jsAbs newQuantity else 0 }
    | none =>
        aSet m key
          ⟨t.product, t.isin, t.aantal, jsAbs t.koers, none, 0, jsAbs t.waarde, 0, 0⟩)
    ([] : List (String × PortfolioHolding))).map Prod.snd).filter
      (fun h => decide (h.quantity ≠ 0))

/-- calculateTotalCosts: sum of absolute fee amounts. -/
def calculateTotalCosts (txs : List DeGiroTransaction) : ℚ :=
  (txs.map (fun t => jsAbs t.transactiekosten)).sum

/-- The per-instrument state of the realized-only ledger walk and of the
monthly/yearly reporters: accumulated signed cash flow and signed quantity. -/
structure LedgerPos where
  totalCost : ℚ
  quantity : ℚ
deriving DecidableEq

/-- The transaction case of calculateRealizedPLOverTime: update the holdings
map and return the realized P&L increment of this event (0 when nothing is
realized).  The three branches are: full close, the branch the source labels
partial close (its guard fires exactly when the position sign flips), and
adding to a position. -/
def applyTxnRPL (m : List (String × LedgerPos)) (t : DeGiroTransaction) :
    List (String × LedgerPos) × ℚ :=
  let key := instrKey t.isin t.product
  match aGet m key with
  | some existing =>
      let newQuantity := existing.quantity + t.aantal
      if newQuantity = 0 then
        (aErase m key, existing.totalCost + t.waarde)
      else if jsSign existing.quantity ≠ jsSign newQuantity then
        let closedQuantity :=
          if jsAbs existing.quantity > jsAbs t.aantal then jsAbs t.aantal
          else jsAbs existing.quantity
        let avgCost := existing.totalCost / jsAbs existing.quantity
        let closedCost := -avgCost * closedQuantity
        let closedSale := t.waarde / jsAbs t.aantal * closedQuantity
        let remainingQuantity := existing.quantity + t.aantal
        let remainingCost := existing.totalCost - closedCost
        (aSet m key ⟨remainingCost, remainingQuantity⟩, closedCost + closedSale)
      else
        (aSet m key ⟨existing.totalCost + t.waarde, newQuantity⟩, 0)
  | none => (aSet m key ⟨t.waarde, t.aantal⟩, 0)

/-- An event of calculateRealizedPLOverTime. -/
inductive RplEvent where
  | txn (d : EDate) (t : DeGiroTransaction)
  | deposit (d : EDate) (a : AccountActivity)
deriving DecidableEq

/-- Timestamp of an RplEvent. -/
def RplEvent.date : RplEvent → EDate
  | .txn d _ => d
  | .deposit d _ => d

/-- The merged, filtered and chronologically sorted event list of
calculateRealizedPLOverTime: transactions first, then the account activities
whose description contains ideal, each dropped when its date failed to parse. -/
def rplEvents (txs : List DeGiroTransaction) (acts : List AccountActivity) :
    List RplEvent :=
  sortBy (fun x y => dateLt x.date y.date)
    ((txs.filterMap fun t => t.date.map (fun d => RplEvent.txn d t))
      ++ (acts.filterMap fun a =>
            if isDepositActivity a then a.date.map (fun d => RplEvent.deposit d a)
            else none))

/-- The fold state and snapshot emission of calculateRealizedPLOverTime. -/
def rplWalk (m : List (String × LedgerPos)) (realizedValue : ℚ) :
    List RplEvent → List Snapshot
  | [] => []
  | e :: es =>
      match e with
      | .deposit d a =>
          let rv := realizedValue + a.mutatie
          ⟨d, rv⟩ :: rplWalk m rv es
      | .txn d t =>
          let r := applyTxnRPL m t
          let rv := realizedValue + r.2
          ⟨d, rv⟩ :: rplWalk r.1 rv es

/-- calculateRealizedPLOverTime: the realized-only time series. -/
def calculateRealizedPLOverTime (txs : List DeGiroTransaction)
    (acts : List AccountActivity) : List Snapshot :=
  rplWalk [] 0 (rplEvents txs acts)

/-- The per-instrument state of calculatePortfolioOverTime. -/
structure PotPos where
  totalCost : ℚ
  quantity : ℚ
  isin : String
  product : String
  isOption : Bool
deriving DecidableEq

/-- The transaction case of calculatePortfolioOverTime; the branches are the
same three as in applyTxnRPL, with the instrument identity and option flag
carried along. -/
def applyTxnPOT (m : List (String × PotPos)) (t : DeGiroTransaction) :
    List (String × PotPos) × ℚ :=
  let key := instrKey t.isin t.product
  let isOpt := isOptionTransaction t
  match aGet m key with
  | some existing =>
      let newQuantity := existing.quantity + t.aantal
      if newQuantity = 0 then
        (aErase m key, existing.totalCost + t.waarde)
      else if jsSign existing.quantity ≠ jsSign newQuantity then
        let closedQuantity :=
          if jsAbs existing.quantity > jsAbs t.aantal then jsAbs t.aantal
          else jsAbs existing.quantity
        let avgCost := existing.totalCost / jsAbs existing.quantity
        let closedCost := -avgCost * closedQuantity
        let closedSale := t.waarde / jsAbs t.aantal * closedQuantity
        let remainingQuantity := existing.quantity + t.aantal
        let remainingCost := existing.totalCost - closedCost
        (aSet m key { existing with
            totalCost := remainingCost, quantity := remainingQuantity },
          closedCost + closedSale)
      else
        (aSet m key { existing with
            totalCost := existing.totalCost + t.waarde, quantity := newQuantity }, 0)
  | none =>
      (aSet m key ⟨t.waarde, t.aantal, t.isin, t.product, isOpt⟩, 0)

/-- The calculateUnrealizedValue helper: mark-to-market each open position at
the price found for its isin, skipping positions with no resolvable price. -/
def unrealizedValue (prices : List (String × ℚ)) (m : List (String × PotPos)) : ℚ :=
  (m.map (fun p =>
    if p.2.quantity ≠ 0 then
      match aGet prices p.2.isin with
      | some currentPrice =>
          let avgPrice := jsAbs (p.2.totalCost / p.2.quantity)
          let multiplier : ℚ := if p.2.isOption then 100 else 1
          (currentPrice - avgPrice) * p.2.quantity * multiplier
      | none => 0
    else 0)).sum

/-- An event of calculatePortfolioOverTime. -/
inductive PotEvent where
  | txn (d : EDate) (t : DeGiroTransaction)
  | deposit (d : EDate) (a : AccountActivity)
  | price (d : EDate) (p : PriceHistory)
deriving DecidableEq

/-- Timestamp of a PotEvent. -/
def PotEvent.date : PotEvent → EDate
  | .txn d _ => d
  | .deposit d _ => d
  | .price d _ => d

/-- The merged event list of calculatePortfolioOverTime: transactions, then
deposit activities, then price updates, sorted chronologically. -/
def potEvents (txs : List DeGiroTransaction) (acts : List AccountActivity)
    (ph : List PriceHistory) : List PotEvent :=
  sortBy (fun x y => dateLt x.date y.date)
    ((txs.filterMap fun t => t.date.map (fun d => PotEvent.txn d t))
      ++ (acts.filterMap fun a =>
            if isDepositActivity a then a.date.map (fun d => PotEvent.deposit d a)
            else none)
      ++ (ph.filterMap fun p => p.date.map (fun d => PotEvent.price d p)))

/-- The mutable locals of calculatePortfolioOverTime. -/
structure PotState where
  holdings : List (String × PotPos)
  prices : List (String × ℚ)
  realizedValue : ℚ
deriving DecidableEq

/-- One event of the calculatePortfolioOverTime fold. -/
def potStep (s : PotState) (e : PotEvent) : PotState :=
  match e with
  | .deposit _ a => { s with realizedValue := s.realizedValue + a.mutatie }
  | .price _ p => { s with prices := aSet s.prices p.isin p.price }
  | .txn _ t =>
      let r := applyTxnPOT s.holdings t
      { s with holdings := r.1, realizedValue := s.realizedValue + r.2 }

/-- The snapshot emission of calculatePortfolioOverTime: after every event,
one snapshot holding realized plus unrealized value. -/
def potWalk (s : PotState) : List PotEvent → List Snapshot
  | [] => []
  | e :: es =>
      let s' := potStep s e
      ⟨e.date, s'.realizedValue + unrealizedValue s'.prices s'.holdings⟩ :: potWalk s' es

/-- The state after all events. -/
def potFinalState (s : PotState) (es : List PotEvent) : PotState := es.foldl potStep s

/-- The initial state: empty maps, zero realized value. -/
def initState : PotState := ⟨[], [], 0⟩

/-- calculatePortfolioOverTime: the full valuation time series; currentPrices
is the caller-supplied current-price map and now the wall clock at invocation.
The source guards the final block with currentPrices.size larger than zero and
snapshots.length larger than zero and then reads the last snapshot; matching
on the last snapshot first is the same condition. -/
def calculatePortfolioOverTime (txs : List DeGiroTransaction)
    (acts : List AccountActivity) (ph : List PriceHistory)
    (currentPrices : List (String × ℚ)) (now : EDate) : List Snapshot :=
  let events := potEvents txs acts ph
  let base := potWalk initState events
  match base.getLast? with
  | none => base
  | some lastSnapshot =>
      if 0 < currentPrices.length then
        let fin := potFinalState initState events
        let currentValue := fin.realizedValue + unrealizedValue currentPrices fin.holdings
        if jsAbs (currentValue - lastSnapshot.value) > 1 / 100 then
          base ++ [⟨now, currentValue⟩]
        else base
      else base

/-- Specification-side view of the walk: total of the counted deposit amounts
in an event list. -/
def sumDeposits : List PotEvent → ℚ
  | [] => 0
  | .deposit _ a :: es => a.mutatie + sumDeposits es
  | _ :: es => sumDeposits es

/-- Specification-side view of the walk: the holdings map and the total of the
realized P&L increments that the transactions of an event list produce. -/
def ledgerFold (m : List (String × PotPos)) : List PotEvent → List (String × PotPos) × ℚ
  | [] => (m, 0)
  | .txn _ t :: es =>
      let r := applyTxnPOT m t
      let rest := ledgerFold r.1 es
      (rest.1, r.2 + rest.2)
  | _ :: es => ledgerFold m es

/-- Specification-side view of the walk: the price map after an event list. -/
def lastPrices (pm : List (String × ℚ)) : List PotEvent → List (String × ℚ)
  | [] => pm
  | .price _ p :: es => lastPrices (aSet pm p.isin p.price) es
  | _ :: es => lastPrices pm es

/-- The per-instrument accumulator of calculateProfitLossByType. -/
structure FlowPos where
  netCashFlow : ℚ
  quantity : ℚ
  isOption : Bool
deriving DecidableEq

/-- The map-building loop of calculateProfitLossByType. -/
def flowMap (txs : List DeGiroTransaction) : List (String × FlowPos) :=
  txs.foldl (fun m t =>
    let key := instrKey t.isin t.product
    match aGet m key with
    | some existing =>
        aSet m key ⟨existing.netCashFlow + t.waarde, existing.quantity + t.aantal,
          existing.isOption⟩
    | none => aSet m key ⟨t.waarde, t.aantal, isOptionTransaction t⟩) []

/-- The four running sums of the classification loop. -/
structure ClassAcc where
  optionsRealized : ℚ
  optionsUnrealized : ℚ
  stocksRealized : ℚ
  stocksUnrealized : ℚ
deriving DecidableEq

/-- The body of the classification loop of calculateProfitLossByType: the
contribution of one map entry to the four sums.  A closed position books its
net cash flow as realized; an open one marks to market when the holdings row
has a current price (options with the contract multiplier 100), else falls
back to the net cash flow for options and to the negated net cash flow for
stocks. -/
def classifyEntry (holdings : List PortfolioHolding) (p : String × FlowPos) : ClassAcc :=
  if p.2.quantity = 0 then
    if p.2.isOption then ⟨p.2.netCashFlow, 0, 0, 0⟩ else ⟨0, 0, p.2.netCashFlow, 0⟩
  else
    let holdingData := holdings.find? (fun h => decide (instrKey h.isin h.product = p.1))
    if p.2.isOption then
      match holdingData with
      | some h =>
          match h.currentPrice with
          | some cp => ⟨0, (cp - h.averagePrice) * p.2.quantity * 100, 0, 0⟩
          | none => ⟨0, p.2.netCashFlow, 0, 0⟩
      | none => ⟨0, p.2.netCashFlow, 0, 0⟩
    else
      match holdingData with
      | some h =>
          match h.currentPrice with
          | some cp => ⟨0, 0, 0, (cp - h.averagePrice) * p.2.quantity⟩
          | none => ⟨0, 0, 0, -p.2.netCashFlow⟩
      | none => ⟨0, 0, 0, -p.2.netCashFlow⟩

/-- The portfolio-value loop of calculateProfitLossByType: current holdings
valued at their current price, options scaled by the contract multiplier. -/
def portfolioValueOf (holdings : List PortfolioHolding)
    (fm : List (String × FlowPos)) : ℚ :=
  (holdings.map (fun h =>
    match h.currentPrice with
    | some cp =>
        if h.quantity ≠ 0 then
          match aGet fm (instrKey h.isin h.product) with
          | some hd =>
              if hd.quantity ≠ 0 then
                if hd.isOption then h.quantity * cp * 100 else h.quantity * cp
              else 0
          | none => 0
        else 0
    | none => 0)).sum

/-- The result record of calculateProfitLossByType. -/
structure PLByType where
  optionsPL : ℚ
  stocksPL : ℚ
  portfolioValue : ℚ
  totalPL : ℚ
  optionsRealized : ℚ
  optionsUnrealized : ℚ
  stocksRealized : ℚ
  stocksUnrealized : ℚ
deriving DecidableEq

/-- calculateProfitLossByType of the source. -/
def calculateProfitLossByType (txs : List DeGiroTransaction)
    (holdings : List PortfolioHolding) : PLByType :=
  let fm := flowMap txs
  let s := fm.foldl (fun acc p =>
    let c := classifyEntry holdings p
    ⟨acc.optionsRealized + c.optionsRealized,
     acc.optionsUnrealized + c.optionsUnrealized,
     acc.stocksRealized + c.stocksRealized,
     acc.stocksUnrealized + c.stocksUnrealized⟩) (⟨0, 0, 0, 0⟩ : ClassAcc)
  let pv := portfolioValueOf holdings fm
  let totalCosts := calculateTotalCosts txs
  { optionsPL := s.optionsRealized + s.optionsUnrealized,
    stocksPL := s.stocksRealized + s.stocksUnrealized,
    portfolioValue := pv,
    totalPL := s.optionsRealized + s.optionsUnrealized + s.stocksRealized
      + s.stocksUnrealized - totalCosts,
    optionsRealized := s.optionsRealized,
    optionsUnrealized := s.optionsUnrealized,
    stocksRealized := s.stocksRealized,
    stocksUnrealized := s.stocksUnrealized }

/-- An event of the monthly/yearly reporters. -/
inductive RepEvent where
  | txn (d : EDate) (t : DeGiroTransaction)
  | deposit (d : EDate) (a : AccountActivity)
  | dividend (d : EDate) (v : Dividend)
deriving DecidableEq

/-- Timestamp of a RepEvent. -/
def RepEvent.date : RepEvent → EDate
  | .txn d _ => d
  | .deposit d _ => d
  | .dividend d _ => d

/-- The merged event list of the reporters: transactions, deposit activities,
dividends, sorted chronologically. -/
def repEvents (txs : List DeGiroTransaction) (acts : List AccountActivity)
    (divs : List Dividend) : List RepEvent :=
  sortBy (fun x y => dateLt x.date y.date)
    ((txs.filterMap fun t => t.date.map (fun d => RepEvent.txn d t))
      ++ (acts.filterMap fun a =>
            if isDepositActivity a then a.date.map (fun d => RepEvent.deposit d a)
            else none)
      ++ (divs.filterMap fun v => v.date.map (fun d => RepEvent.dividend d v)))

/-- The transaction case of the reporters: the reporters realize only on a full
close and otherwise fold the cash flow into the position; the result carries
the realized P&L when a close happened, since only then is the bucket map
touched. -/
def applyTxnBucket (m : List (String × LedgerPos)) (t : DeGiroTransaction) :
    List (String × LedgerPos) × Option ℚ :=
  let key := instrKey t.isin t.product
  match aGet m key with
  | some existing =>
      let newQuantity := existing.quantity + t.aantal
      if newQuantity = 0 then
        (aErase m key, some (existing.totalCost + t.waarde))
      else
        (aSet m key ⟨existing.totalCost + t.waarde, newQuantity⟩, none)
  | none => (aSet m key ⟨t.waarde, t.aantal⟩, none)

/-- One bucket of a reporter. -/
structure BucketData where
  realized : ℚ
  deposits : ℚ
  dividends : ℚ
deriving DecidableEq

/-- One event of a reporter fold, parametrized by the bucket key derived from
the event timestamp (the year for the yearly reporter, year and month for the
monthly one). -/
def bucketStep [DecidableEq K] (keyOf : EDate → K)
    (s : List (K × BucketData) × List (String × LedgerPos)) (e : RepEvent) :
    List (K × BucketData) × List (String × LedgerPos) :=
  match e with
  | .deposit d a =>
      let cur := (aGet s.1 (keyOf d)).getD ⟨0, 0, 0⟩
      (aSet s.1 (keyOf d) { cur with deposits := cur.deposits + a.mutatie }, s.2)
  | .dividend d v =>
      let cur := (aGet s.1 (keyOf d)).getD ⟨0, 0, 0⟩
      (aSet s.1 (keyOf d) { cur with dividends := cur.dividends + v.amount }, s.2)
  | .txn d t =>
      let r := applyTxnBucket s.2 t
      match r.2 with
      | some pl =>
          let cur := (aGet s.1 (keyOf d)).getD ⟨0, 0, 0⟩
          (aSet s.1 (keyOf d) { cur with realized := cur.realized + pl }, r.1)
      | none => (s.1, r.1)

/-- The bucket key of the yearly reporter: format yyyy. -/
def yearKey (d : EDate) : Int := d.year

/-- The bucket key of the monthly reporter: format MMM yyyy, rendered here as
the pair of year and month (the string form is in bijection with it for
calendar-valid dates, and the source sorts it by parsed date anyway). -/
def monthKey (d : EDate) : Int × Nat := (d.year, d.month)

/-- One row of calculateYearlyReturns; the year label is kept as the integer
the source would render and parse back with parseInt. -/
structure YearlyReturn where
  year : Int
  realized : ℚ
  unrealized : ℚ
  total : ℚ
deriving DecidableEq

/-- One row of calculateMonthlyReturns. -/
structure MonthlyReturn where
  year : Int
  month : Nat
  realized : ℚ
  unrealized : ℚ
  total : ℚ
deriving DecidableEq

/-- calculateYearlyReturns: drive the close-only ledger walk bucketed by year,
report realized plus dividends per bucket, sorted ascending by year. -/
def calculateYearlyReturns (txs : List DeGiroTransaction)
    (acts : List AccountActivity) (divs : List Dividend) : List YearlyReturn :=
  let events := repEvents txs acts divs
  let final := events.foldl (bucketStep yearKey) ([], [])
  sortBy (fun a b => decide (a.year < b.year))
    (final.1.map (fun p =>
      ⟨p.1, p.2.realized + p.2.dividends, 0, p.2.realized + p.2.dividends⟩))

/-- calculateMonthlyReturns: the same walk bucketed by year and month, sorted
ascending by parsed bucket date. -/
def calculateMonthlyReturns (txs : List DeGiroTransaction)
    (acts : List AccountActivity) (divs : List Dividend) : List MonthlyReturn :=
  let events := repEvents txs acts divs
  let final := events.foldl (bucketStep monthKey) ([], [])
  sortBy (fun a b => decide (a.year < b.year ∨ (a.year = b.year ∧ a.month < b.month)))
    (final.1.map (fun p =>
      ⟨p.1.1, p.1.2, p.2.realized + p.2.dividends, 0, p.2.realized + p.2.dividends⟩))

/-- The value of a JavaScript floating-point expression where a division by
zero can occur: a finite rational or one of the three non-finite numbers. -/
inductive JsNum where
  | fin (q : ℚ)
  | posInf
  | negInf
  | nan
deriving DecidableEq

/-- JavaScript division: finite quotient when the denominator is nonzero, else
signed infinity, with zero over zero giving NaN. -/
def jsDiv (a b : ℚ) : JsNum :=
  if b = 0 then if a = 0 then .nan else if 0 < a then .posInf else .negInf
  else .fin (a / b)

/-- Multiplication of such a value by the positive literal 100. -/
def jsMul100 : JsNum → JsNum
  | .fin q => .fin (q * 100)
  | x => x

/-- PortfolioChart line 37: the net portfolio value used as the percentage
base for every bucket. -/
def netPortfolioValue (totalValue borrowedAmount : ℚ) : ℚ :=
  totalValue - borrowedAmount

/-- One bar of the monthly-returns chart. -/
structure MonthlyChartPoint where
  year : Int
  month : Nat
  realized : ℚ
  percentage : JsNum
deriving DecidableEq

/-- One bar of the yearly-returns chart. -/
structure YearlyChartPoint where
  year : Int
  realized : ℚ
  percentage : JsNum
deriving DecidableEq

/-- PortfolioChart monthly data: realized divided by the net portfolio value
times 100, with JavaScript division semantics (no guard in the source). -/
def monthlyChartData (txs : List DeGiroTransaction) (acts : List AccountActivity)
    (totalValue borrowedAmount : ℚ) : List MonthlyChartPoint :=
  (calculateMonthlyReturns txs acts []).map fun it =>
    ⟨it.year, it.month, it.realized,
      jsMul100 (jsDiv it.realized (netPortfolioValue totalValue borrowedAmount))⟩

/-- PortfolioChart yearly data, same formula as the monthly one. -/
def yearlyChartData (txs : List DeGiroTransaction) (acts : List AccountActivity)
    (totalValue borrowedAmount : ℚ) : List YearlyChartPoint :=
  (calculateYearlyReturns txs acts []).map fun it =>
    ⟨it.year, it.realized,
      jsMul100 (jsDiv it.realized (netPortfolioValue totalValue borrowedAmount))⟩

/-- The as-of-now value the final block of calculatePortfolioOverTime
computes: realized value after all events plus the open positions marked at
the caller-supplied current prices. -/
def currentValueOf (txs : List DeGiroTransaction) (acts : List AccountActivity)
    (ph : List PriceHistory) (currentPrices : List (String × ℚ)) : ℚ :=
  let fin := potFinalState initState (potEvents txs acts ph)
  fin.realizedValue + unrealizedValue currentPrices fin.holdings

/-- Total of realized plus dividends over the buckets of a reporter map. -/
def bucketsRealizedSum [DecidableEq K] (bm : List (K × BucketData)) : ℚ :=
  (bm.map (fun p => p.2.realized + p.2.dividends)).sum

/-- Specification-side view of a reporter run: the total realized P&L plus
dividends its events produce, independent of any bucketing. -/
def repTotal (hm : List (String × LedgerPos)) : List RepEvent → ℚ
  | [] => 0
  | .txn _ t :: es =>
      ((applyTxnBucket hm t).2.getD 0) + repTotal (applyTxnBucket hm t).1 es
  | .dividend _ v :: es => v.amount + repTotal hm es
  | .deposit _ _ :: es => repTotal hm es

/-- Inserting into a list is a permutation of consing. -/
theorem insertEv_perm (lt : α → α → Bool) (e : α) (m : List α) :
    (insertEv lt e m).Perm (e :: m) := by
  induction m with
  | nil => rfl
  | cons x xs ih =>
      simp only [insertEv]
      split
      · exact ((ih.cons x).trans (List.Perm.swap e x xs))
      · rfl

/-- The stable sort permutes its input. -/
theorem sortBy_perm (lt : α → α → Bool) (l : List α) : (sortBy lt l).Perm l := by
  induction l with
  | nil => rfl
  | cons a t ih => exact ((insertEv_perm lt a (sortBy lt t)).trans (ih.cons a))

/-- The walk emits exactly one snapshot per event. -/
theorem potWalk_length (es : List PotEvent) : ∀ s : PotState,
    (potWalk s es).length = es.length := by
  induction es with
  | nil => intro s; rfl
  | cons e es ih => intro s; simp [potWalk, ih]

/-- Characterization of the i-th snapshot of the walk: its timestamp is the
i-th event's and its value is realized plus unrealized in the state reached
after the first i+1 events. -/
theorem potWalk_get (es : List PotEvent) : ∀ (s : PotState) (i : Nat) (snap : Snapshot),
    (potWalk s es).get? i = some snap →
    ∃ e, es.get? i = some e ∧
      snap = ⟨e.date,
        ((es.take (i + 1)).foldl potStep s).realizedValue
          + unrealizedValue ((es.take (i + 1)).foldl potStep s).prices
              ((es.take (i + 1)).foldl potStep s).holdings⟩ := by
  induction es with
  | nil => intro s i snap h; simp [potWalk] at h
  | cons e es ih =>
      intro s i snap h
      cases i with
      | zero =>
          refine ⟨e, rfl, ?_⟩
          simp only [potWalk, List.get?] at h
          cases h
          simp [List.take, List.foldl]
      | succ i =>
          simp only [potWalk, List.get?] at h
          obtain ⟨e', he', hsnap⟩ := ih (potStep s e) i snap h
          exact ⟨e', he', by simpa [List.take, List.foldl] using hsnap⟩

/-- The fold state decomposes componentwise into the specification-side views:
the holdings map and realized total come from the transactions, the price map
from the price updates, and the running realized value is its starting point
plus the deposits plus the realized increments. -/
theorem potFold_decomp (es : List PotEvent) : ∀ s : PotState,
    (es.foldl potStep s).holdings = (ledgerFold s.holdings es).1
  ∧ (es.foldl potStep s).prices = lastPrices s.prices es
  ∧ (es.foldl potStep s).realizedValue
      = s.realizedValue + sumDeposits es + (ledgerFold s.holdings es).2 := by
  induction es with
  | nil => intro s; refine ⟨rfl, rfl, by simp [ledgerFold, sumDeposits]⟩
  | cons e es ih =>
      intro s
      cases e with
      | txn d t =>
          obtain ⟨h1, h2, h3⟩ := ih (potStep s (.txn d t))
          refine ⟨?_, ?_, ?_⟩
          · simpa [potStep, ledgerFold] using h1
          · simpa [potStep, lastPrices] using h2
          · simp only [List.foldl] at h3 ⊢
            rw [h3]
            simp [potStep, ledgerFold, sumDeposits]
            ring
      | deposit d a =>
          obtain ⟨h1, h2, h3⟩ := ih (potStep s (.deposit d a))
          refine ⟨?_, ?_, ?_⟩
          · simpa [potStep, ledgerFold] using h1
          · simpa [potStep, lastPrices] using h2
          · simp only [List.foldl] at h3 ⊢
            rw [h3]
            simp [potStep, ledgerFold, sumDeposits]
            ring
      | price d p =>
          obtain ⟨h1, h2, h3⟩ := ih (potStep s (.price d p))
          refine ⟨?_, ?_, ?_⟩
          · simpa [potStep, ledgerFold] using h1
          · simpa [potStep, lastPrices] using h2
          · simp only [List.foldl] at h3 ⊢
            rw [h3]
            simp [potStep, ledgerFold, sumDeposits]

/-- The appending condition of the final as-of-now block: either it holds and
the output is the per-event series plus one extra snapshot at the clock time,
or it fails and the output is the per-event series alone. -/
theorem calcPOT_cases (txs : List DeGiroTransaction) (acts : List AccountActivity)
    (ph : List PriceHistory) (cp : List (String × ℚ)) (now : EDate) :
    (calculatePortfolioOverTime txs acts ph cp now
        = potWalk initState (potEvents txs acts ph)
            ++ [⟨now, currentValueOf txs acts ph cp⟩]
      ∧ cp ≠ []
      ∧ ∃ l, (potWalk initState (potEvents txs acts ph)).getLast? = some l
          ∧ jsAbs (currentValueOf txs acts ph cp - l.value) > 1 / 100)
  ∨ (calculatePortfolioOverTime txs acts ph cp now
        = potWalk initState (potEvents txs acts ph)
      ∧ ¬(cp ≠ []
          ∧ ∃ l, (potWalk initState (potEvents txs acts ph)).getLast? = some l
              ∧ jsAbs (currentValueOf txs acts ph cp - l.value) > 1 / 100)) := by
  simp only [calculatePortfolioOverTime, currentValueOf]
  cases hl : (potWalk initState (potEvents txs acts ph)).getLast? with
  | none =>
      right
      refine ⟨rfl, ?_⟩
      rintro ⟨-, l, hsome, -⟩
      simp [hl] at hsome
  | some l =>
      by_cases hcp : 0 < cp.length
      · by_cases hgt :
          jsAbs ((potFinalState initState (potEvents txs acts ph)).realizedValue
            + unrealizedValue cp (potFinalState initState (potEvents txs acts ph)).holdings
            - l.value) > 1 / 100
        · left
          refine ⟨?_, ?_, l, rfl, hgt⟩
          · dsimp only
            rw [if_pos hcp, if_pos hgt]
          · intro hnil
            simp [hnil] at hcp
        · right
          refine ⟨?_, ?_⟩
          · dsimp only
            rw [if_pos hcp, if_neg hgt]
          · rintro ⟨-, l', hsome, hgt'⟩
            cases hsome
            exact hgt hgt'
      · right
        refine ⟨?_, ?_⟩
        · dsimp only
          rw [if_neg hcp]
        · rintro ⟨hnil, -⟩
          exact hcp (by simpa [List.length_pos] using hnil)

/-- Claim C6: after processing all events the walk appends exactly one extra
as-of-now snapshot precisely when a non-empty current-price map is supplied
and the value it implies differs from the last emitted snapshot's value by
more than 0.01; otherwise the output is exactly the per-event snapshot list
(one snapshot per event). -/
theorem final_snapshot_appended_iff (txs : List DeGiroTransaction)
    (acts : List AccountActivity) (ph : List PriceHistory)
    (cp : List (String × ℚ)) (now : EDate) :
    ((calculatePortfolioOverTime txs acts ph cp now).length
        = (potEvents txs acts ph).length
      ∨ (calculatePortfolioOverTime txs acts ph cp now).length
          = (potEvents txs acts ph).length + 1)
  ∧ ((calculatePortfolioOverTime txs acts ph cp now).length
        = (potEvents txs acts ph).length + 1 ↔
      cp ≠ [] ∧ ∃ l, (potWalk initState (potEvents txs acts ph)).getLast? = some l
          ∧ jsAbs (currentValueOf txs acts ph cp - l.value) > 1 / 100)
  ∧ (calculatePortfolioOverTime txs acts ph cp now).take (potEvents txs acts ph).length
      = potWalk initState (potEvents txs acts ph) := by
  have hlen := potWalk_length (potEvents txs acts ph) initState
  rcases calcPOT_cases txs acts ph cp now with ⟨heq, hc⟩ | ⟨heq, hc⟩
  · refine ⟨Or.inr ?_, ⟨fun _ => hc, fun _ => ?_⟩, ?_⟩
    · rw [heq]; simp [hlen]
    · rw [heq]; simp [hlen]
    · rw [heq, ← hlen]
      exact List.take_left _ _
  · refine ⟨Or.inl ?_, ⟨fun h => ?_, fun h => absurd h hc⟩, ?_⟩
    · rw [heq, hlen]
    · rw [heq, hlen] at h
      omega
    · rw [heq, ← hlen, List.take_length]

/-- Claim C4 (amended): the engine is deterministic in its inputs together
with the invocation clock; all snapshot values, and the whole per-event
snapshot prefix including timestamps, are functions of the input arrays
alone — only the timestamp of the optional appended as-of-now snapshot
follows the clock. -/
theorem engine_deterministic_up_to_clock (txs : List DeGiroTransaction)
    (acts : List AccountActivity) (ph : List PriceHistory)
    (cp : List (String × ℚ)) (now₁ now₂ : EDate) :
    (calculatePortfolioOverTime txs acts ph cp now₁).map Snapshot.value
      = (calculatePortfolioOverTime txs acts ph cp now₂).map Snapshot.value
  ∧ (calculatePortfolioOverTime txs acts ph cp now₁).take (potEvents txs acts ph).length
      = (calculatePortfolioOverTime txs acts ph cp now₂).take (potEvents txs acts ph).length := by
  have hlen := potWalk_length (potEvents txs acts ph) initState
  rcases calcPOT_cases txs acts ph cp now₁ with ⟨h1, hc1⟩ | ⟨h1, hc1⟩ <;>
    rcases calcPOT_cases txs acts ph cp now₂ with ⟨h2, hc2⟩ | ⟨h2, hc2⟩
  · rw [h1, h2]
    constructor
    · simp
    · rw [← hlen, List.take_left, List.take_left]
  · exact absurd hc1 hc2
  · exact absurd hc2 hc1
  · rw [h1, h2]
    exact ⟨rfl, rfl⟩

/-- Claim C4 (counterexample): two invocations of the engine on identical
input arrays but at different clock instants give different outputs: the
appended as-of-now snapshot carries the invocation time. -/
theorem engine_not_clock_independent :
    calculatePortfolioOverTime [⟨"P", "I", 1, 10, -10, 0, some ⟨2023, 3, 1, 10, 0⟩⟩]
        [] [] [("I", 20)] ⟨2024, 1, 1, 0, 0⟩
      ≠ calculatePortfolioOverTime [⟨"P", "I", 1, 10, -10, 0, some ⟨2023, 3, 1, 10, 0⟩⟩]
        [] [] [("I", 20)] ⟨2024, 1, 2, 0, 0⟩ := by
  have h1 : calculatePortfolioOverTime
      [⟨"P", "I", 1, 10, -10, 0, some ⟨2023, 3, 1, 10, 0⟩⟩] [] [] [("I", 20)]
      ⟨2024, 1, 1, 0, 0⟩
      = [⟨⟨2023, 3, 1, 10, 0⟩, 0⟩, ⟨⟨2024, 1, 1, 0, 0⟩, 10⟩] := by
    norm_num [calculatePortfolioOverTime, potEvents, sortBy, insertEv, dateLt, EDate.key,
      potWalk, potStep, potFinalState, initState, applyTxnPOT, instrKey, aGet, aSet, aErase,
      unrealizedValue, jsAbs, jsSign, isOptionTransaction, hasOptionPattern, List.getLast?,
      List.foldr, List.foldl, List.filterMap, List.map, List.sum, Option.map, PotEvent.date]
  have h2 : calculatePortfolioOverTime
      [⟨"P", "I", 1, 10, -10, 0, some ⟨2023, 3, 1, 10, 0⟩⟩] [] [] [("I", 20)]
      ⟨2024, 1, 2, 0, 0⟩
      = [⟨⟨2023, 3, 1, 10, 0⟩, 0⟩, ⟨⟨2024, 1, 2, 0, 0⟩, 10⟩] := by
    norm_num [calculatePortfolioOverTime, potEvents, sortBy, insertEv, dateLt, EDate.key,
      potWalk, potStep, potFinalState, initState, applyTxnPOT, instrKey, aGet, aSet, aErase,
      unrealizedValue, jsAbs, jsSign, isOptionTransaction, hasOptionPattern, List.getLast?,
      List.foldr, List.foldl, List.filterMap, List.map, List.sum, Option.map, PotEvent.date]
  rw [h1, h2]
  simp

/-- Claim C3: at every emitted snapshot of the valuation walk, the sum of the
realized P&L increments so far plus the counted deposit amounts so far plus
the current unrealized value of the open positions equals the snapshot value
(exactly, hence within any floating-point tolerance); the appended as-of-now
snapshot satisfies the same identity with the current-price map. -/
theorem accounting_identity (txs : List DeGiroTransaction)
    (acts : List AccountActivity) (ph : List PriceHistory)
    (cp : List (String × ℚ)) (now : EDate) :
    (∀ i snap, i < (potEvents txs acts ph).length →
        (calculatePortfolioOverTime txs acts ph cp now).get? i = some snap →
        snap.value
          = sumDeposits ((potEvents txs acts ph).take (i + 1))
            + (ledgerFold [] ((potEvents txs acts ph).take (i + 1))).2
            + unrealizedValue (lastPrices [] ((potEvents txs acts ph).take (i + 1)))
                (ledgerFold [] ((potEvents txs acts ph).take (i + 1))).1)
  ∧ (∀ snap,
        (calculatePortfolioOverTime txs acts ph cp now).get?
            (potEvents txs acts ph).length = some snap →
        snap.value
          = sumDeposits (potEvents txs acts ph)
            + (ledgerFold [] (potEvents txs acts ph)).2
            + unrealizedValue cp (ledgerFold [] (potEvents txs acts ph)).1) := by
  have hlen := potWalk_length (potEvents txs acts ph) initState
  constructor
  · intro i snap hi hsnap
    have hbase : (potWalk initState (potEvents txs acts ph)).get? i = some snap := by
      rcases calcPOT_cases txs acts ph cp now with ⟨heq, -⟩ | ⟨heq, -⟩
      · rw [heq] at hsnap
        rwa [List.get?_append (by rw [hlen]; exact hi)] at hsnap
      · rwa [heq] at hsnap
    obtain ⟨e, -, hval⟩ := potWalk_get (potEvents txs acts ph) initState i snap hbase
    obtain ⟨hh, hp, hr⟩ := potFold_decomp ((potEvents txs acts ph).take (i + 1)) initState
    rw [hval]
    simp only [hh, hp, hr]
    simp [initState]
  · intro snap hsnap
    rcases calcPOT_cases txs acts ph cp now with ⟨heq, -⟩ | ⟨heq, -⟩
    · rw [heq] at hsnap
      rw [← hlen, List.get?_concat_length] at hsnap
      obtain ⟨hh, -, hr⟩ := potFold_decomp (potEvents txs acts ph) initState
      cases hsnap
      simp only [currentValueOf, potFinalState, hh, hr]
      simp [initState]
    · rw [heq] at hsnap
      rw [← hlen] at hsnap
      simp [List.get?_eq_none] at hsnap

/-- Witness for the accounting identity: one counted deposit of 100 produces a
first snapshot of value 100, and the identity instantiates to it. -/
theorem accounting_identity_witness :
    (Snapshot.mk ⟨2023, 5, 1, 9, 0⟩ 100).value
      = sumDeposits ((potEvents []
            [⟨"ideal storting", 100, some ⟨2023, 5, 1, 9, 0⟩⟩] []).take 1)
        + (ledgerFold [] ((potEvents []
            [⟨"ideal storting", 100, some ⟨2023, 5, 1, 9, 0⟩⟩] []).take 1)).2
        + unrealizedValue
            (lastPrices [] ((potEvents []
              [⟨"ideal storting", 100, some ⟨2023, 5, 1, 9, 0⟩⟩] []).take 1))
            (ledgerFold [] ((potEvents []
              [⟨"ideal storting", 100, some ⟨2023, 5, 1, 9, 0⟩⟩] []).take 1)).1 :=
  (accounting_identity [] [⟨"ideal storting", 100, some ⟨2023, 5, 1, 9, 0⟩⟩] [] []
      ⟨2024, 1, 1, 0, 0⟩).1 0 ⟨⟨2023, 5, 1, 9, 0⟩, 100⟩
    (by decide)
    (by norm_num [calculatePortfolioOverTime, potEvents, sortBy, insertEv, dateLt,
      EDate.key, potWalk, potStep, potFinalState, initState, unrealizedValue,
      isDepositActivity, hasSub, beginsWith, List.getLast?, List.foldr, List.foldl,
      List.filterMap, List.map, List.sum, Option.map, PotEvent.date])

/-- Claim C1 (code evaluation at the failing input): opening 10 shares at 100
(cash flow -1000) and selling 4 at 120 (cash flow +480) realizes nothing: both
snapshots of the realized-only series stay at 0, the surviving ledger entry
absorbs the sale into its cost (totalCost -520 for 6 shares, an average of
about 86.67 instead of the kept 100 the claim states), and calculateHoldings
reports an average price of 1480/6 instead of 100. -/
theorem partial_close_code_behavior :
    calculateRealizedPLOverTime
        [⟨"P", "I", 10, 100, -1000, 0, some ⟨2023, 3, 1, 10, 0⟩⟩,
         ⟨"P", "I", -4, 120, 480, 0, some ⟨2023, 3, 2, 10, 0⟩⟩] []
      = [⟨⟨2023, 3, 1, 10, 0⟩, 0⟩, ⟨⟨2023, 3, 2, 10, 0⟩, 0⟩]
  ∧ applyTxnRPL
        (applyTxnRPL [] ⟨"P", "I", 10, 100, -1000, 0, some ⟨2023, 3, 1, 10, 0⟩⟩).1
        ⟨"P", "I", -4, 120, 480, 0, some ⟨2023, 3, 2, 10, 0⟩⟩
      = ([("I-P", ⟨-520, 6⟩)], 0)
  ∧ calculateHoldings
        [⟨"P", "I", 10, 100, -1000, 0, some ⟨2023, 3, 1, 10, 0⟩⟩,
         ⟨"P", "I", -4, 120, 480, 0, some ⟨2023, 3, 2, 10, 0⟩⟩]
      = [⟨"P", "I", 6, 1480 / 6, none, 0, 1480, 0, 0⟩] := by
  refine ⟨?_, ?_, ?_⟩
  · norm_num [calculateRealizedPLOverTime, rplEvents, rplWalk, sortBy, insertEv, dateLt,
      EDate.key, applyTxnRPL, instrKey, aGet, aSet, aErase, jsSign, jsAbs,
      List.foldr, List.filterMap, Option.map, RplEvent.date]
  · norm_num [applyTxnRPL, instrKey, aGet, aSet, jsSign, jsAbs]
    decide
  · norm_num [calculateHoldings, instrKey, aGet, aSet, jsAbs, List.foldl, List.map,
      List.filter]

/-- Claim C2 (code evaluation at the failing input): opening long 5 at 50
(cash flow -250) then selling 8 at 60 (cash flow +480) takes the sign-flip
branch, which returns a realized increment of 550 instead of the 50 the claim
states, and leaves the short 3 position with totalCost -500 (a cost basis of
about 166.67 instead of the flipping transaction's own price 60); the same
numbers come out of the realized-only series walk. -/
theorem sign_flip_code_behavior :
    applyTxnPOT
        (applyTxnPOT [] ⟨"P", "I", 5, 50, -250, 0, some ⟨2023, 3, 1, 10, 0⟩⟩).1
        ⟨"P", "I", -8, 60, 480, 0, some ⟨2023, 3, 2, 10, 0⟩⟩
      = ([("I-P", ⟨-500, -3, "I", "P", false⟩)], 550)
  ∧ applyTxnRPL
        (applyTxnRPL [] ⟨"P", "I", 5, 50, -250, 0, some ⟨2023, 3, 1, 10, 0⟩⟩).1
        ⟨"P", "I", -8, 60, 480, 0, some ⟨2023, 3, 2, 10, 0⟩⟩
      = ([("I-P", ⟨-500, -3⟩)], 550) := by
  constructor
  · norm_num [applyTxnPOT, instrKey, aGet, aSet, jsSign, jsAbs, isOptionTransaction,
      hasOptionPattern]
    decide
  · norm_num [applyTxnRPL, instrKey, aGet, aSet, jsSign, jsAbs]
    decide

/-- Claim C5 (counterexample): a zero-quantity transaction with a nonzero cash
flow applied to an open position is not a no-op: the holdings map changes (the
cash flow is folded into totalCost). -/
theorem zero_quantity_not_noop :
    (applyTxnPOT
        (applyTxnPOT [] ⟨"P", "I", 10, 100, -1000, 0, some ⟨2023, 3, 1, 10, 0⟩⟩).1
        ⟨"P", "I", 0, 0, 5, 0, some ⟨2023, 3, 2, 10, 0⟩⟩).1
      ≠ (applyTxnPOT [] ⟨"P", "I", 10, 100, -1000, 0, some ⟨2023, 3, 1, 10, 0⟩⟩).1 := by
  have h1 : (applyTxnPOT [] ⟨"P", "I", 10, 100, -1000, 0, some ⟨2023, 3, 1, 10, 0⟩⟩).1
      = [("I-P", ⟨-1000, 10, "I", "P", false⟩)] := by
    norm_num [applyTxnPOT, instrKey, aGet, aSet, isOptionTransaction, hasOptionPattern]
    decide
  have h2 : (applyTxnPOT
        (applyTxnPOT [] ⟨"P", "I", 10, 100, -1000, 0, some ⟨2023, 3, 1, 10, 0⟩⟩).1
        ⟨"P", "I", 0, 0, 5, 0, some ⟨2023, 3, 2, 10, 0⟩⟩).1
      = [("I-P", ⟨-995, 10, "I", "P", false⟩)] := by
    norm_num [applyTxnPOT, instrKey, aGet, aSet, jsSign, jsAbs, isOptionTransaction,
      hasOptionPattern]
    decide
  rw [h2, h1]
  norm_num

/-- Claim C5 (amended): a zero-quantity transaction on an instrument with an
open entry of nonzero quantity emits no realized P&L increment and leaves the
quantity unchanged, but it is not skipped: its cash-flow value is added to the
entry's totalCost. -/
theorem zero_quantity_updates_cost_only (m : List (String × PotPos))
    (t : DeGiroTransaction) (pos : PotPos)
    (hget : aGet m (instrKey t.isin t.product) = some pos)
    (hq : pos.quantity ≠ 0) (hz : t.aantal = 0) :
    applyTxnPOT m t
      = (aSet m (instrKey t.isin t.product)
          { pos with totalCost := pos.totalCost + t.waarde }, 0) := by
  simp only [applyTxnPOT, hget, hz, add_zero]
  simp [hq]

/-- Witness for the amended zero-quantity behaviour at a concrete input. -/
theorem zero_quantity_updates_cost_only_witness :
    applyTxnPOT [("I-P", ⟨-1000, 10, "I", "P", false⟩)] ⟨"P", "I", 0, 0, 5, 0, none⟩
      = (aSet [("I-P", ⟨-1000, 10, "I", "P", false⟩)]
          (instrKey "I" "P") ⟨-1000 + 5, 10, "I", "P", false⟩, 0) :=
  zero_quantity_updates_cost_only [("I-P", ⟨-1000, 10, "I", "P", false⟩)]
    ⟨"P", "I", 0, 0, 5, 0, none⟩ ⟨-1000, 10, "I", "P", false⟩
    (by decide) (by norm_num) (by norm_num)

/-- Claim C9: the option contract multiplier 100 is applied in the by-type
unrealized computation — the spec example, a short option position of
quantity -2, average price 1.50 and current price 0.50, yields unrealized
+200 — and the time-series valuation helper scales every option position by
100 and every stock position by 1. -/
theorem option_multiplier_uniform :
    (calculateProfitLossByType [⟨"AB C99", "I1", -2, 3 / 2, 300, 0, none⟩]
        [⟨"AB C99", "I1", -2, 3 / 2, some (1 / 2), 0, 300, 0, 0⟩]).optionsUnrealized = 200
  ∧ (∀ (tc q p : ℚ) (k isin prod : String), q ≠ 0 →
      unrealizedValue [(isin, p)] [(k, ⟨tc, q, isin, prod, true⟩)]
        = (p - jsAbs (tc / q)) * q * 100)
  ∧ (∀ (tc q p : ℚ) (k isin prod : String), q ≠ 0 →
      unrealizedValue [(isin, p)] [(k, ⟨tc, q, isin, prod, false⟩)]
        = (p - jsAbs (tc / q)) * q * 1) := by
  refine ⟨?_, ?_, ?_⟩
  · norm_num [calculateProfitLossByType, flowMap, classifyEntry, portfolioValueOf,
      calculateTotalCosts, instrKey, aGet, aSet, isOptionTransaction, hasOptionPattern,
      List.foldl, List.map, List.sum, List.find?, jsAbs]
    decide
  · intro tc q p k isin prod hq
    simp [unrealizedValue, aGet, hq]
  · intro tc q p k isin prod hq
    simp [unrealizedValue, aGet, hq]

/-- Witness for the multiplier in the time-series helper: a short option
position of two contracts against a price entry, instantiated concretely. -/
theorem option_multiplier_uniform_witness :
    unrealizedValue [("I1", 1 / 2)] [("K", ⟨300, -2, "I1", "AB C99", true⟩)]
      = (1 / 2 - jsAbs (300 / -2)) * (-2) * 100 :=
  option_multiplier_uniform.2.1 300 (-2) (1 / 2) "K" "I1" "AB C99" (by norm_num)

/-- Claim C10: when an open position has no resolvable current price, the
by-type computation books an open option position at its raw net cash flow and
an open stock position at the negated net cash flow, while the time-series
valuation helper contributes exactly 0 for a priceless open position. -/
theorem missing_price_fallbacks :
    (∀ (w q : ℚ), q ≠ 0 →
      (calculateProfitLossByType [⟨"AB C99", "I1", q, 0, w, 0, none⟩] []).optionsUnrealized
        = w)
  ∧ (∀ (w q : ℚ), q ≠ 0 →
      (calculateProfitLossByType [⟨"AB pl", "I1", q, 0, w, 0, none⟩] []).stocksUnrealized
        = -w)
  ∧ (∀ (tc q : ℚ) (k isin prod : String) (b : Bool),
      unrealizedValue [] [(k, ⟨tc, q, isin, prod, b⟩)] = 0) := by
  have hopt : hasOptionPattern ("AB C99").data = true := by decide
  have hstk : hasOptionPattern ("AB pl").data = false := by decide
  refine ⟨?_, ?_, ?_⟩
  · intro w q hq
    simp [calculateProfitLossByType, flowMap, classifyEntry, portfolioValueOf,
      calculateTotalCosts, instrKey, aGet, aSet, isOptionTransaction, hopt,
      List.foldl, List.map, List.sum, List.find?, jsAbs, hq]
  · intro w q hq
    simp [calculateProfitLossByType, flowMap, classifyEntry, portfolioValueOf,
      calculateTotalCosts, instrKey, aGet, aSet, isOptionTransaction, hstk,
      List.foldl, List.map, List.sum, List.find?, jsAbs, hq]
  · intro tc q k isin prod b
    simp [unrealizedValue, aGet]

/-- Witness for the missing-price fallbacks at concrete inputs. -/
theorem missing_price_fallbacks_witness :
    (calculateProfitLossByType [⟨"AB C99", "I1", 2, 0, 7, 0, none⟩] []).optionsUnrealized
      = 7 :=
  missing_price_fallbacks.1 7 2 (by norm_num)

/-- Claim C8 (counterexample): a one-bucket month with realized 50 and a zero
net portfolio value (totalValue 5, borrowed 5) gets percentage Infinity, not
the 0 the claim states — the division is not guarded. -/
theorem percentage_unguarded_counterexample :
    (monthlyChartData
        [⟨"P", "I", 10, 100, -1000, 0, some ⟨2023, 3, 1, 10, 0⟩⟩,
         ⟨"P", "I", -10, 105, 1050, 0, some ⟨2023, 3, 2, 10, 0⟩⟩] [] 5 5).map
        (fun pt => pt.percentage)
      = [JsNum.posInf]
  ∧ JsNum.posInf ≠ JsNum.fin 0 := by
  constructor
  · norm_num [monthlyChartData, calculateMonthlyReturns, repEvents, sortBy, insertEv,
      dateLt, EDate.key, bucketStep, applyTxnBucket, instrKey, aGet, aSet, aErase,
      monthKey, List.foldr, List.foldl, List.filterMap, List.map, Option.map,
      RepEvent.date, jsDiv, jsMul100, netPortfolioValue]
  · intro h
    cases h

/-- Claim C8 (amended): each monthly or yearly bucket's percentage is the
bucket's realized figure divided by the single current net portfolio value
(gross minus borrowed) times 100, computed without a zero guard: a zero net
value yields Infinity or minus Infinity by the sign of the realized figure,
and NaN when it is zero — never 0. -/
theorem bucket_percentage_unguarded (txs : List DeGiroTransaction)
    (acts : List AccountActivity) (tv ba : ℚ) :
    (∀ pt ∈ monthlyChartData txs acts tv ba,
        (netPortfolioValue tv ba ≠ 0 →
          pt.percentage = JsNum.fin (pt.realized / netPortfolioValue tv ba * 100))
      ∧ (netPortfolioValue tv ba = 0 →
          (pt.realized = 0 → pt.percentage = JsNum.nan)
          ∧ (0 < pt.realized → pt.percentage = JsNum.posInf)
          ∧ (pt.realized < 0 → pt.percentage = JsNum.negInf)))
  ∧ (∀ pt ∈ yearlyChartData txs acts tv ba,
        (netPortfolioValue tv ba ≠ 0 →
          pt.percentage = JsNum.fin (pt.realized / netPortfolioValue tv ba * 100))
      ∧ (netPortfolioValue tv ba = 0 →
          (pt.realized = 0 → pt.percentage = JsNum.nan)
          ∧ (0 < pt.realized → pt.percentage = JsNum.posInf)
          ∧ (pt.realized < 0 → pt.percentage = JsNum.negInf))) := by
  constructor
  · intro pt hpt
    simp only [monthlyChartData, List.mem_map] at hpt
    obtain ⟨it, -, rfl⟩ := hpt
    constructor
    · intro hne
      simp [jsDiv, jsMul100, hne]
    · intro hz
      refine ⟨fun h0 => ?_, fun hpos => ?_, fun hneg => ?_⟩
      · simp only [] at h0
        simp [jsDiv, jsMul100, hz, h0]
      · simp [jsDiv, jsMul100, hz, hpos.ne', hpos]
      · simp [jsDiv, jsMul100, hz, hneg.ne, hneg, asymm hneg]
  · intro pt hpt
    simp only [yearlyChartData, List.mem_map] at hpt
    obtain ⟨it, -, rfl⟩ := hpt
    constructor
    · intro hne
      simp [jsDiv, jsMul100, hne]
    · intro hz
      refine ⟨fun h0 => ?_, fun hpos => ?_, fun hneg => ?_⟩
      · simp only [] at h0
        simp [jsDiv, jsMul100, hz, h0]
      · simp [jsDiv, jsMul100, hz, hpos.ne', hpos]
      · simp [jsDiv, jsMul100, hz, hneg.ne, hneg, asymm hneg]

/-- Witness for the unguarded percentage formula: a realized-50 month against
net portfolio value 10 gets percentage 50 / 10 x 100. -/
theorem bucket_percentage_unguarded_witness :
    (MonthlyChartPoint.mk 2023 3 50 (JsNum.fin 500)).percentage
      = JsNum.fin ((MonthlyChartPoint.mk 2023 3 50 (JsNum.fin 500)).realized
          / netPortfolioValue 10 0 * 100) := by
  have hmem : (MonthlyChartPoint.mk 2023 3 50 (JsNum.fin 500)) ∈ monthlyChartData
      [⟨"P", "I", 10, 100, -1000, 0, some ⟨2023, 3, 1, 10, 0⟩⟩,
       ⟨"P", "I", -10, 105, 1050, 0, some ⟨2023, 3, 2, 10, 0⟩⟩] [] 10 0 := by
    have he : monthlyChartData
        [⟨"P", "I", 10, 100, -1000, 0, some ⟨2023, 3, 1, 10, 0⟩⟩,
         ⟨"P", "I", -10, 105, 1050, 0, some ⟨2023, 3, 2, 10, 0⟩⟩] [] 10 0
        = [⟨2023, 3, 50, JsNum.fin 500⟩] := by
      norm_num [monthlyChartData, calculateMonthlyReturns, repEvents, sortBy, insertEv,
        dateLt, EDate.key, bucketStep, applyTxnBucket, instrKey, aGet, aSet, aErase,
        monthKey, List.foldr, List.foldl, List.filterMap, List.map, Option.map,
        RepEvent.date, jsDiv, jsMul100, netPortfolioValue]
    rw [he]
    exact List.mem_singleton.mpr rfl
  exact ((bucket_percentage_unguarded
      [⟨"P", "I", 10, 100, -1000, 0, some ⟨2023, 3, 1, 10, 0⟩⟩,
       ⟨"P", "I", -10, 105, 1050, 0, some ⟨2023, 3, 2, 10, 0⟩⟩] [] 10 0).1
    _ hmem).1 (by norm_num [netPortfolioValue])

/-- Unfolding of the bucket sum on a cons cell. -/
theorem bucketsRealizedSum_cons [DecidableEq K] (p : K × BucketData)
    (ps : List (K × BucketData)) :
    bucketsRealizedSum (p :: ps) = (p.2.realized + p.2.dividends) + bucketsRealizedSum ps := by
  simp [bucketsRealizedSum]

/-- Updating one bucket through get-or-default and set changes the bucket sum
by exactly the increment the update applies. -/
theorem bucketsSum_aSet [DecidableEq K] (bm : List (K × BucketData)) (k : K)
    (g : BucketData → BucketData) (dlt : ℚ)
    (hg : ∀ b, (g b).realized + (g b).dividends = b.realized + b.dividends + dlt) :
    bucketsRealizedSum (aSet bm k (g ((aGet bm k).getD ⟨0, 0, 0⟩)))
      = bucketsRealizedSum bm + dlt := by
  induction bm with
  | nil =>
      simp [bucketsRealizedSum, aGet, aSet, hg ⟨0, 0, 0⟩]
  | cons p ps ih =>
      by_cases hk : p.1 = k
      · simp only [aGet, aSet, hk, if_pos, Option.getD_some]
        rw [bucketsRealizedSum_cons, bucketsRealizedSum_cons]
        rw [hg p.2]
        ring
      · simp only [aGet, aSet, hk, if_neg, ite_false]
        rw [bucketsRealizedSum_cons, bucketsRealizedSum_cons, ih]
        ring

/-- Over a reporter fold, the bucket sum grows by exactly the realized and
dividend total of the events, independent of the bucketing key. -/
theorem bucketFold_sum [DecidableEq K] (keyOf : EDate → K) (es : List RepEvent) :
    ∀ (bm : List (K × BucketData)) (hm : List (String × LedgerPos)),
    bucketsRealizedSum ((es.foldl (bucketStep keyOf) (bm, hm)).1)
      = bucketsRealizedSum bm + repTotal hm es := by
  induction es with
  | nil => intro bm hm; simp [repTotal]
  | cons e es ih =>
      intro bm hm
      cases e with
      | deposit d a =>
          simp only [List.foldl, bucketStep]
          rw [ih]
          rw [bucketsSum_aSet bm (keyOf d)
            (fun b => ⟨b.realized, b.deposits + a.mutatie, b.dividends⟩) 0
            (fun b => by dsimp only; ring)]
          simp [repTotal]
      | dividend d v =>
          simp only [List.foldl, bucketStep]
          rw [ih]
          rw [bucketsSum_aSet bm (keyOf d)
            (fun b => ⟨b.realized, b.deposits, b.dividends + v.amount⟩) v.amount
            (fun b => by dsimp only; ring)]
          simp [repTotal]
          ring
      | txn d t =>
          simp only [List.foldl, bucketStep]
          cases hr : (applyTxnBucket hm t).2 with
          | none =>
              rw [ih]
              simp [repTotal, hr]
          | some pl =>
              rw [ih]
              rw [bucketsSum_aSet bm (keyOf d)
                (fun b => ⟨b.realized + pl, b.deposits, b.dividends⟩) pl
                (fun b => by dsimp only; ring)]
              simp [repTotal, hr]
              ring

/-- Every binding after a set is the new key or an old binding. -/
theorem mem_aSet [DecidableEq K] (m : List (K × β)) (k : K) (v : β) :
    ∀ p ∈ aSet m k v, p.1 = k ∨ p ∈ m := by
  induction m with
  | nil =>
      intro p hp
      simp [aSet] at hp
      subst hp
      exact Or.inl rfl
  | cons q qs ih =>
      intro p hp
      by_cases hk : q.1 = k
      · simp only [aSet, hk, if_pos] at hp
        rcases List.mem_cons.mp hp with h | h
        · subst h; exact Or.inl rfl
        · exact Or.inr (List.mem_cons_of_mem _ h)
      · simp only [aSet, hk, ite_false] at hp
        rcases List.mem_cons.mp hp with h | h
        · subst h; exact Or.inr (List.mem_cons_self _ _)
        · rcases ih p h with h' | h'
          · exact Or.inl h'
          · exact Or.inr (List.mem_cons_of_mem _ h')

/-- Every bucket key of a reporter fold that did not come from the starting
map is the key of one of the events. -/
theorem bucketFold_keys [DecidableEq K] (keyOf : EDate → K) (es : List RepEvent) :
    ∀ (bm : List (K × BucketData)) (hm : List (String × LedgerPos)),
    ∀ p ∈ (es.foldl (bucketStep keyOf) (bm, hm)).1,
      p.1 ∈ bm.map Prod.fst ∨ ∃ e ∈ es, p.1 = keyOf (RepEvent.date e) := by
  induction es with
  | nil =>
      intro bm hm p hp
      exact Or.inl (List.mem_map_of_mem Prod.fst hp)
  | cons e es ih =>
      intro bm hm p hp
      have step :
          ∀ (bm' : List (K × BucketData)) (hm' : List (String × LedgerPos)),
          (∀ q ∈ bm', q.1 = keyOf (RepEvent.date e) ∨ q.1 ∈ bm.map Prod.fst) →
          p ∈ (es.foldl (bucketStep keyOf) (bm', hm')).1 →
          p.1 ∈ bm.map Prod.fst ∨ ∃ e' ∈ e :: es, p.1 = keyOf (RepEvent.date e') := by
        intro bm' hm' hsub hp'
        rcases ih bm' hm' p hp' with h | ⟨e', he', hk⟩
        · obtain ⟨q, hq, hq1⟩ := List.mem_map.mp h
          rcases hsub q hq with h' | h'
          · exact Or.inr ⟨e, List.mem_cons_self _ _, by rw [← hq1, h']⟩
          · exact Or.inl (hq1 ▸ h')
        · exact Or.inr ⟨e', List.mem_cons_of_mem _ he', hk⟩
      cases e with
      | deposit d a =>
          refine step _ hm ?_ (by simpa [List.foldl, bucketStep] using hp)
          intro q hq
          rcases mem_aSet _ _ _ q hq with h | h
          · exact Or.inl h
          · exact Or.inr (List.mem_map_of_mem Prod.fst h)
      | dividend d v =>
          refine step _ hm ?_ (by simpa [List.foldl, bucketStep] using hp)
          intro q hq
          rcases mem_aSet _ _ _ q hq with h | h
          · exact Or.inl h
          · exact Or.inr (List.mem_map_of_mem Prod.fst h)
      | txn d t =>
          simp only [List.foldl, bucketStep] at hp
          cases hr : (applyTxnBucket hm t).2 with
          | none =>
              rw [hr] at hp
              refine step bm _ (fun q hq => Or.inr (List.mem_map_of_mem Prod.fst hq)) hp
          | some pl =>
              rw [hr] at hp
              refine step _ _ ?_ hp
              intro q hq
              rcases mem_aSet _ _ _ q hq with h | h
              · exact Or.inl h
              · exact Or.inr (List.mem_map_of_mem Prod.fst h)

/-- A set either keeps the key list or appends the fresh key at the end. -/
theorem keys_aSet [DecidableEq K] (m : List (K × β)) (k : K) (v : β) :
    (aSet m k v).map Prod.fst = m.map Prod.fst
  ∨ (aSet m k v).map Prod.fst = m.map Prod.fst ++ [k] := by
  induction m with
  | nil => right; simp [aSet]
  | cons q qs ih =>
      by_cases hk : q.1 = k
      · left
        simp [aSet, hk]
      · rcases ih with h | h
        · left
          simp [aSet, hk, h]
        · right
          simp [aSet, hk, h]

/-- Setting never removes a key. -/
theorem keys_aSet_superset [DecidableEq K] (m : List (K × β)) (k : K) (v : β) :
    ∀ x ∈ m.map Prod.fst, x ∈ (aSet m k v).map Prod.fst := by
  intro x hx
  rcases keys_aSet m k v with h | h
  · rw [h]; exact hx
  · rw [h]; exact List.mem_append_left _ hx

/-- Setting preserves distinctness of the keys. -/
theorem nodup_keys_aSet [DecidableEq K] (m : List (K × β)) (k : K) (v : β)
    (hnd : (m.map Prod.fst).Nodup) : ((aSet m k v).map Prod.fst).Nodup := by
  induction m with
  | nil => simp [aSet]
  | cons q qs ih =>
      simp only [List.map_cons, List.nodup_cons] at hnd
      by_cases hk : q.1 = k
      · simp only [aSet, hk, if_pos, List.map_cons, List.nodup_cons]
        exact ⟨hk ▸ hnd.1, hnd.2⟩
      · simp only [aSet, hk, ite_false, List.map_cons, List.nodup_cons]
        refine ⟨?_, ih hnd.2⟩
        intro hmem
        rcases keys_aSet qs k v with h | h
        · rw [h] at hmem; exact hnd.1 hmem
        · rw [h] at hmem
          rcases List.mem_append.mp hmem with h' | h'
          · exact hnd.1 h'
          · exact hk (List.mem_singleton.mp h')

/-- A reporter fold keeps the bucket keys distinct. -/
theorem bucketFold_nodup [DecidableEq K] (keyOf : EDate → K) (es : List RepEvent) :
    ∀ (bm : List (K × BucketData)) (hm : List (String × LedgerPos)),
    (bm.map Prod.fst).Nodup →
    (((es.foldl (bucketStep keyOf) (bm, hm)).1).map Prod.fst).Nodup := by
  induction es with
  | nil => intro bm hm h; exact h
  | cons e es ih =>
      intro bm hm h
      cases e with
      | deposit d a =>
          simp only [List.foldl, bucketStep]
          exact ih _ _ (nodup_keys_aSet _ _ _ h)
      | dividend d v =>
          simp only [List.foldl, bucketStep]
          exact ih _ _ (nodup_keys_aSet _ _ _ h)
      | txn d t =>
          simp only [List.foldl, bucketStep]
          cases hr : (applyTxnBucket hm t).2 with
          | none => exact ih _ _ h
          | some pl => exact ih _ _ (nodup_keys_aSet _ _ _ h)

/-- A map whose keys are distinct yet all equal holds at most one binding. -/
theorem length_le_one_of_keys [DecidableEq K] (bm : List (K × BucketData)) (y : K)
    (hkeys : ∀ p ∈ bm, p.1 = y) (hnd : (bm.map Prod.fst).Nodup) : bm.length ≤ 1 := by
  match bm with
  | [] => simp
  | [p] => simp
  | p :: q :: r =>
      exfalso
      simp only [List.map_cons, List.nodup_cons] at hnd
      apply hnd.1
      have hp := hkeys p (List.mem_cons_self _ _)
      have hq := hkeys q (List.mem_cons_of_mem _ (List.mem_cons_self _ _))
      rw [hp, ← hq]
      exact List.mem_cons_self _ _

/-- The yearly reporter's total realized output equals the bucketing-free
realized and dividend total of its events. -/
theorem yearly_realized_sum (txs : List DeGiroTransaction)
    (acts : List AccountActivity) (divs : List Dividend) :
    ((calculateYearlyReturns txs acts divs).map (fun r => r.realized)).sum
      = repTotal [] (repEvents txs acts divs) := by
  simp only [calculateYearlyReturns]
  rw [((sortBy_perm (fun a b => decide (a.year < b.year))
      ((((repEvents txs acts divs).foldl (bucketStep yearKey) ([], [])).1).map
        (fun p => ⟨p.1, p.2.realized + p.2.dividends, 0,
          p.2.realized + p.2.dividends⟩))).map
      (fun r : YearlyReturn => r.realized)).sum_eq]
  rw [List.map_map]
  show bucketsRealizedSum
      (((repEvents txs acts divs).foldl (bucketStep yearKey) ([], [])).1)
    = repTotal [] (repEvents txs acts divs)
  rw [bucketFold_sum yearKey (repEvents txs acts divs) [] []]
  simp [bucketsRealizedSum]

/-- The monthly reporter's total realized output equals the same
bucketing-free total. -/
theorem monthly_realized_sum (txs : List DeGiroTransaction)
    (acts : List AccountActivity) (divs : List Dividend) :
    ((calculateMonthlyReturns txs acts divs).map (fun r => r.realized)).sum
      = repTotal [] (repEvents txs acts divs) := by
  simp only [calculateMonthlyReturns]
  rw [((sortBy_perm
      (fun a b => decide (a.year < b.year ∨ (a.year = b.year ∧ a.month < b.month)))
      ((((repEvents txs acts divs).foldl (bucketStep monthKey) ([], [])).1).map
        (fun p => ⟨p.1.1, p.1.2, p.2.realized + p.2.dividends, 0,
          p.2.realized + p.2.dividends⟩))).map
      (fun r : MonthlyReturn => r.realized)).sum_eq]
  rw [List.map_map]
  show bucketsRealizedSum
      (((repEvents txs acts divs).foldl (bucketStep monthKey) ([], [])).1)
    = repTotal [] (repEvents txs acts divs)
  rw [bucketFold_sum monthKey (repEvents txs acts divs) [] []]
  simp [bucketsRealizedSum]

/-- Claim C7: when every event of the reporters falls in the calendar year y,
the sum of the monthly realized figures equals the sum of the yearly realized
figures, the yearly reporter emits buckets only for y, and it emits at most
one bucket — so the monthly sum equals that year's yearly figure. -/
theorem bucket_consistency (txs : List DeGiroTransaction)
    (acts : List AccountActivity) (divs : List Dividend) (y : Int)
    (h : ∀ e ∈ repEvents txs acts divs, (RepEvent.date e).year = y) :
    ((calculateMonthlyReturns txs acts divs).map (fun r => r.realized)).sum
      = ((calculateYearlyReturns txs acts divs).map (fun r => r.realized)).sum
  ∧ (∀ r ∈ calculateYearlyReturns txs acts divs, r.year = y)
  ∧ (calculateYearlyReturns txs acts divs).length ≤ 1 := by
  refine ⟨?_, ?_, ?_⟩
  · rw [monthly_realized_sum, yearly_realized_sum]
  · intro r hr
    simp only [calculateYearlyReturns] at hr
    have hr' := (sortBy_perm _ _).mem_iff.mp hr
    obtain ⟨p, hp, rfl⟩ := List.mem_map.mp hr'
    rcases bucketFold_keys yearKey (repEvents txs acts divs) [] [] p hp with h' | ⟨e, he, hk⟩
    · simp at h'
    · show p.1 = y
      rw [hk, ← h e he]
      rfl
  · simp only [calculateYearlyReturns]
    rw [(sortBy_perm (fun a b : YearlyReturn => decide (a.year < b.year))
      ((((repEvents txs acts divs).foldl (bucketStep yearKey) ([], [])).1).map
        (fun p => (⟨p.1, p.2.realized + p.2.dividends, 0,
          p.2.realized + p.2.dividends⟩ : YearlyReturn)))).length_eq]
    rw [List.length_map]
    refine length_le_one_of_keys _ y ?_
      (bucketFold_nodup yearKey (repEvents txs acts divs) [] [] (by simp))
    intro p hp
    rcases bucketFold_keys yearKey (repEvents txs acts divs) [] [] p hp with h' | ⟨e, he, hk⟩
    · simp at h'
    · rw [hk, ← h e he]
      rfl

/-- Witness for the bucket consistency: a position opened and fully closed
within March 2023 realizes 50 in both reporters. -/
theorem bucket_consistency_witness :
    ((calculateMonthlyReturns
        [⟨"P", "I", 10, 100, -1000, 0, some ⟨2023, 3, 1, 10, 0⟩⟩,
         ⟨"P", "I", -10, 105, 1050, 0, some ⟨2023, 3, 2, 10, 0⟩⟩] [] []).map
        (fun r => r.realized)).sum
      = ((calculateYearlyReturns
        [⟨"P", "I", 10, 100, -1000, 0, some ⟨2023, 3, 1, 10, 0⟩⟩,
         ⟨"P", "I", -10, 105, 1050, 0, some ⟨2023, 3, 2, 10, 0⟩⟩] [] []).map
        (fun r => r.realized)).sum :=
  (bucket_consistency
    [⟨"P", "I", 10, 100, -1000, 0, some ⟨2023, 3, 1, 10, 0⟩⟩,
     ⟨"P", "I", -10, 105, 1050, 0, some ⟨2023, 3, 2, 10, 0⟩⟩] [] [] 2023 (by decide)).1
